import Mathlib

/-!
Shallow embedding of the selective persistence engine of
`src/lib/session-storage/session-storage.model.ts` (class `SessionStorage`)
together with the parts of the first engine variant in the same file
(`set` + `handlePermanentStorage`) that the verified properties refer to.

The browser storages (`sessionStorage`, `localStorage`) are modelled as
association lists from fully-qualified string keys to stored strings; the
state container (`this.store`) is an association list from property names
to cells, where a cell is either a reactive signal (an object with a `set`
method in the source) or a plain value.  `JSON.stringify` / `JSON.parse`
are modelled over an inductive type of JSON values, with a small executable
parser; numbers are restricted to integers and strings are escape-free,
which is enough for every property below.  A JavaScript exception is
modelled as `Except.error` carrying the state at the throw site; the
`console.log` / `console.warn` / `console.error` diagnostics are modelled
as a log of structured entries in the state.
-/

namespace OMA

/-- JSON values as produced by `JSON.parse` and consumed by `JSON.stringify`.
Numbers are modelled as integers and string contents are escape-free. -/
inductive JVal : Type
  | null : JVal
  | bool : Bool → JVal
  | num : Int → JVal
  | str : String → JVal
  | arr : List JVal → JVal
  | obj : List (String × JVal) → JVal

mutual

/-- `JSON.stringify` on the modelled JSON fragment. -/
def jstringify : JVal → String
  | .null => "null"
  | .bool true => "true"
  | .bool false => "false"
  | .num n => toString n
  | .str s => "\"" ++ s ++ "\""
  | .arr l => "[" ++ jstrList l ++ "]"
  | .obj l => "\x7b" ++ jstrFields l ++ "\x7d"

/-- Comma-separated serialization of array elements. -/
def jstrList : List JVal → String
  | [] => ""
  | [x] => jstringify x
  | x :: y :: xs => jstringify x ++ "," ++ jstrList (y :: xs)

/-- Comma-separated serialization of object fields. -/
def jstrFields : List (String × JVal) → String
  | [] => ""
  | [(k, v)] => "\"" ++ k ++ "\":" ++ jstringify v
  | (k, v) :: y :: xs => "\"" ++ k ++ "\":" ++ jstringify v ++ "," ++ jstrFields (y :: xs)

end

/-- Skip JSON whitespace. -/
def skipWs : List Char → List Char
  | [] => []
  | c :: cs => if c = ' ' ∨ c = '\n' ∨ c = '\t' ∨ c = '\r' then skipWs cs else c :: cs

/-- Take a maximal run of decimal digits. -/
def takeDigits : List Char → List Char × List Char
  | [] => ([], [])
  | c :: cs =>
    if c.isDigit then
      let p := takeDigits cs
      (c :: p.1, p.2)
    else ([], c :: cs)

/-- Decimal digits to a natural number. -/
def digitsToNat (l : List Char) : Nat :=
  l.foldl (fun a c => a * 10 + (c.toNat - 48)) 0

/-- The opening-brace character. -/
def lbrace : Char := Char.ofNat 123

/-- The closing-brace character. -/
def rbrace : Char := Char.ofNat 125

/-- Parse the body of a JSON string literal, after the opening quote
(escape sequences are unsupported and rejected). -/
def parseStrBody : List Char → Option (String × List Char)
  | [] => none
  | c :: cs =>
    if c = '"' then some ("", cs)
    else if c = '\\' then none
    else
      match parseStrBody cs with
      | some (s, r) => some (String.mk (c :: s.data), r)
      | none => none

mutual

/-- Fuel-bounded JSON value parsing; returns the value and the rest of the input. -/
def parseVal : Nat → List Char → Option (JVal × List Char)
  | 0, _ => none
  | fuel + 1, input =>
    match skipWs input with
    | [] => none
    | c :: cs =>
      if c = 'n' then
        if ['u', 'l', 'l'].isPrefixOf cs then some (.null, cs.drop 3) else none
      else if c = 't' then
        if ['r', 'u', 'e'].isPrefixOf cs then some (.bool true, cs.drop 3) else none
      else if c = 'f' then
        if ['a', 'l', 's', 'e'].isPrefixOf cs then some (.bool false, cs.drop 4) else none
      else if c = '"' then
        match parseStrBody cs with
        | some (s, r) => some (.str s, r)
        | none => none
      else if c = '-' then
        match takeDigits cs with
        | ([], _) => none
        | (ds, r) => some (.num (-(digitsToNat ds : Int)), r)
      else if c.isDigit then
        match takeDigits (c :: cs) with
        | (ds, r) => some (.num (digitsToNat ds : Int), r)
      else if c = '[' then
        match skipWs cs with
        | ']' :: r => some (.arr [], r)
        | r =>
          match parseElems fuel r with
          | some (l, r2) => some (.arr l, r2)
          | none => none
      else if c = lbrace then
        match skipWs cs with
        | [] => none
        | d :: r =>
          if d = rbrace then some (.obj [], r)
          else
            match parseFields fuel (d :: r) with
            | some (l, r2) => some (.obj l, r2)
            | none => none
      else none

/-- Fuel-bounded parsing of the elements of a non-empty JSON array. -/
def parseElems : Nat → List Char → Option (List JVal × List Char)
  | 0, _ => none
  | fuel + 1, input =>
    match parseVal fuel input with
    | none => none
    | some (v, r) =>
      match skipWs r with
      | ',' :: r2 =>
        match parseElems fuel r2 with
        | some (l, r3) => some (v :: l, r3)
        | none => none
      | ']' :: r2 => some ([v], r2)
      | _ => none

/-- Fuel-bounded parsing of the fields of a non-empty JSON object. -/
def parseFields : Nat → List Char → Option (List (String × JVal) × List Char)
  | 0, _ => none
  | fuel + 1, input =>
    match skipWs input with
    | [] => none
    | c :: cs =>
      if c = '"' then
        match parseStrBody cs with
        | none => none
        | some (k, r) =>
          match skipWs r with
          | ':' :: r2 =>
            match parseVal fuel r2 with
            | none => none
            | some (v, r3) =>
              match skipWs r3 with
              | ',' :: r4 =>
                match parseFields fuel r4 with
                | some (l, r5) => some ((k, v) :: l, r5)
                | none => none
              | d :: r4 => if d = rbrace then some ([(k, v)], r4) else none
              | [] => none
          | _ => none
      else none

end

/-- `JSON.parse`: parse a whole string as a JSON value; `none` models a thrown
`SyntaxError` (malformed JSON). -/
def jparse (s : String) : Option JVal :=
  match parseVal (s.data.length + 1) s.data with
  | some (v, r) => if skipWs r = [] then some v else none
  | none => none

/-- First-match lookup in an association list (JS object / Storage read). -/
def alGet {α : Type} : List (String × α) → String → Option α
  | [], _ => none
  | p :: ps, k => if p.1 = k then some p.2 else alGet ps k

/-- Replace every binding of `k` (association lists built by the engine have
unique keys, so this is plain in-place update). -/
def alSetGo {α : Type} (k : String) (v : α) : List (String × α) → List (String × α)
  | [] => []
  | p :: ps => (if p.1 = k then (k, v) else p) :: alSetGo k v ps

/-- JS object / Storage write: update the binding in place if the key is
present, otherwise append it. -/
def alSet {α : Type} (l : List (String × α)) (k : String) (v : α) : List (String × α) :=
  if l.any (fun p => decide (p.1 = k)) then alSetGo k v l else l ++ [(k, v)]

/-- JS `delete` / `Storage.removeItem`: drop every binding of `k`. -/
def alErase {α : Type} (l : List (String × α)) (k : String) : List (String × α) :=
  l.filter (fun p => decide (p.1 ≠ k))

/-- A runtime value held in the container: a JSON-representable value, or a
value `JSON.stringify` cannot encode (e.g. an object graph with a cycle). -/
inductive Value : Type
  | jv : JVal → Value
  | cyclic : Value

/-- A container entry: a reactive signal (an object with a `set` method) or a
plain value.  The source's duck-typed probe distinguishes exactly these. -/
inductive Cell : Type
  | signal : Value → Cell
  | plain : Value → Cell

/-- The current value of a cell (a signal's read, or the plain value). -/
def cellValue : Cell → Value
  | .signal v => v
  | .plain v => v

/-- The source's `storeProperty !== undefined && storeProperty !== null` check:
a signal object is never `null`; a plain binding is `null` iff it is JSON null. -/
def cellLive : Cell → Bool
  | .signal _ => true
  | .plain (.jv .null) => false
  | .plain _ => true

/-- `JSON.stringify` on a runtime value; `Except.error` models the thrown
serialization error for a non-encodable value. -/
def tryStringify : Value → Except Unit String
  | .jv j => .ok (jstringify j)
  | .cyclic => .error ()

/-- `JSON.stringify` on a record of runtime values (the IDO payload); it throws
iff some field holds a non-encodable value. -/
def tryStringifyBag (l : List (String × Value)) : Except Unit String :=
  if l.any (fun p => match p.2 with | .cyclic => true | .jv _ => false) then .error ()
  else .ok (jstringify (.obj (l.map (fun p => (p.1, match p.2 with | .jv j => j | .cyclic => .null)))))

/-- Structured diagnostics standing for the `console.log` / `console.warn` /
`console.error` calls of the source, tagged by call site. -/
inductive LogEntry : Type
  | warnNoCfgRestore
  | warnNoCfgInit
  | errRestoreLoc (key : String)
  | errRestoreSess (key : String)
  | errRestoreIdo
  | warnExitKeep (key : String)
  | warnExitRemoved (key : String)
  | warnExitIdoPrepared (key : String)
  | errExitIdoStore
  | errInitLoc (key : String)
  | errInitSess (key : String)
  | warnInitSkip (key : String)
  | errInitIdoStore
  | errGetParse (key : String)
  | logPersistedLoc (key : String)
  | logTransferredIdo (key : String)

/-- The mutable world the engine acts on: the two storage backends, the state
container, the window-scoped orchestrator bag of the first variant, and the
emitted diagnostics. -/
structure St : Type where
  sess : List (String × String)
  loc : List (String × String)
  store : List (String × Cell)
  orchBag : List (String × Value)
  log : List LogEntry

/-- The `PermanentConfig` record: which property names go to localStorage
(durable), stay in sessionStorage (ephemeral), and are transferred to the
orchestrator IDO (shared), each field optional. -/
structure PermCfg : Type where
  localStorage : Option (List String)
  sessionStorage : Option (List String)
  ido : Option (List (String × String))

/-- The immutable part of a `SessionStorage` instance: its namespace
and its optional permanent configuration. -/
structure SS : Type where
  KEY_PREFIX : String
  permanent : Option PermCfg

/-- `key.startsWith(p)` on the modelled strings. -/
def strStartsWith (p s : String) : Bool := p.data.isPrefixOf s.data

/-- `fullKey.replace(p, '')` for a `fullKey` that starts with `p`. -/
def dropNamespaceOf (p s : String) : String := String.mk (s.data.drop p.data.length)

/-- The source's trailing-dash strip on the namespace (a `replace` with the
regexp matching one dash at end of string). -/
def dropTrailingDash (s : String) : String :=
  match s.data.getLast? with
  | some c => if c = '-' then String.mk s.data.dropLast else s
  | none => s

/-- The derived orchestrator IDO key
`orchestratorStorage.KEY_PREFIX + featureName + "Ido"` where `featureName`
is the local namespace lowercased with its trailing dash stripped. -/
def featureIdoKey (orchKeyNs localKeyNs : String) : String :=
  orchKeyNs ++ String.mk ((dropTrailingDash localKeyNs).data.map Char.toLower) ++ "Ido"

/-- The source's signal-probing container write: call the signal's `set` if the
current entry is a signal, otherwise assign a plain value (adding the key if
absent).  Used by `set` and `get`. -/
def containerSet (store : List (String × Cell)) (k : String) (v : Value) : List (String × Cell) :=
  match alGet store k with
  | some (.signal _) => alSet store k (.signal v)
  | _ => alSet store k (.plain v)

/-- The container's current value for a key, seen through its cell. -/
def containerValue (store : List (String × Cell)) (k : String) : Option Value :=
  (alGet store k).map cellValue

/-- `SessionStorage.set` of the tier-configured variant: probe the container
entry, update it (a signal's `set` or a plain assignment), serialize, and
write the serialized value under the namespaced key into the ephemeral
backend.  A serialization error propagates (`Except.error` carries the state
at the throw site: in the signal branch the signal was already updated). -/
def ssSet (e : SS) (key : String) (v : Value) (st : St) : Except St St :=
  match alGet st.store key with
  | some (.signal _) =>
    let st1 : St := { st with store := alSet st.store key (.signal v) }
    match tryStringify v with
    | .ok s => .ok { st1 with sess := alSet st1.sess (e.KEY_PREFIX ++ key) s }
    | .error _ => .error st1
  | _ =>
    match tryStringify v with
    | .ok s =>
      .ok { st with sess := alSet st.sess (e.KEY_PREFIX ++ key) s,
                    store := alSet st.store key (.plain v) }
    | .error _ => .error st

/-- `SessionStorage.handlePermanentStorage` of the first variant: after the
base write, mirror the serialized value to localStorage when the key is in
the durable list, and transfer the value to the window-scoped orchestrator
bag when the `ido` mapping names it (skipped when the mapped remote key is
the empty string, which is falsy in the source's truthiness test). -/
def handlePermanentStorage (e : SS) (key : String) (v : Value) (st : St) : Except St St :=
  match e.permanent with
  | none => .ok st
  | some cfg =>
    let firstRes : Except St St :=
      match cfg.localStorage with
      | some ls =>
        if key ∈ ls then
          match tryStringify v with
          | .ok s =>
            .ok { st with loc := alSet st.loc (e.KEY_PREFIX ++ key) s,
                          log := st.log ++ [.logPersistedLoc key] }
          | .error _ => .error st
        else .ok st
      | none => .ok st
    match firstRes with
    | .error stE => .error stE
    | .ok st1 =>
      match cfg.ido with
      | some idl =>
        match alGet idl key with
        | some okey =>
          if okey = "" then .ok st1
          else
            .ok { st1 with orchBag := alSet st1.orchBag okey v,
                           log := st1.log ++ [.logTransferredIdo key] }
        | none => .ok st1
      | none => .ok st1

/-- `SessionStorage.set` of the first variant: the base write (identical in the
two variants) followed by `handlePermanentStorage`. -/
def ssSetV1 (e : SS) (key : String) (v : Value) (st : St) : Except St St :=
  match ssSet e key v st with
  | .error stE => .error stE
  | .ok st1 => handlePermanentStorage e key v st1

/-- `SessionStorage.get` of the tier-configured variant: read the namespaced
ephemeral entry; absence or the literal string `"undefined"` yields the
default (JS `defaultValue ?? null`, modelled as the passed option); a parse
failure is caught, logged, and yields the default; a parsed value is written
back into the container through the signal probe and returned (a parsed JSON
null is returned as the JS `null`, modelled as `none`). -/
def ssGet (e : SS) (key : String) (dflt : Option Value) (st : St) : Option Value × St :=
  match alGet st.sess (e.KEY_PREFIX ++ key) with
  | none => (dflt, st)
  | some item =>
    if item = "undefined" then (dflt, st)
    else
      match jparse item with
      | none => (dflt, { st with log := st.log ++ [.errGetParse key] })
      | some j =>
        let st1 : St := { st with store := containerSet st.store key (.jv j) }
        match j with
        | .null => (none, st1)
        | _ => (some (.jv j), st1)

/-- One step of `SessionStorage.getAll`: call `get` for a container key and
collect the result when it is not the JS `null`. -/
def getAllStep (e : SS) (acc : List (String × Value) × St) (k : String) :
    List (String × Value) × St :=
  let r := ssGet e k none acc.2
  match r.1 with
  | some v => (acc.1 ++ [(k, v)], r.2)
  | none => (acc.1, r.2)

/-- `SessionStorage.getAll` of the tier-configured variant: fold `get` over a
snapshot of the container's keys. -/
def ssGetAll (e : SS) (st : St) : List (String × Value) × St :=
  (st.store.map Prod.fst).foldl (getAllStep e) ([], st)

/-- One durable-restore step of `restore`: read the namespaced localStorage
entry; when present and not the `"undefined"` sentinel, first mirror the raw
string into sessionStorage, then parse it; on success assign the parsed value
plainly into the container, on failure log and leave the container alone. -/
def restoreLocStep (e : SS) (st : St) (key : String) : St :=
  match alGet st.loc (e.KEY_PREFIX ++ key) with
  | none => st
  | some v =>
    if v = "undefined" then st
    else
      let st1 : St := { st with sess := alSet st.sess (e.KEY_PREFIX ++ key) v }
      match jparse v with
      | some j => { st1 with store := alSet st1.store key (.plain (.jv j)) }
      | none => { st1 with log := st1.log ++ [.errRestoreLoc key] }

/-- One ephemeral-restore step of `restore`: read the namespaced sessionStorage
entry; when present and not the `"undefined"` sentinel, parse it; on success
assign the parsed value plainly into the container, on failure log. -/
def restoreSessStep (e : SS) (st : St) (key : String) : St :=
  match alGet st.sess (e.KEY_PREFIX ++ key) with
  | none => st
  | some v =>
    if v = "undefined" then st
    else
      match jparse v with
      | some j => { st with store := alSet st.store key (.plain (.jv j)) }
      | none => { st with log := st.log ++ [.errRestoreSess key] }

/-- One assignment of the IDO-restore loop: when the parsed IDO record has the
remote key, assign its value plainly into the container and mirror its
serialization into sessionStorage under the local namespaced key. -/
def idoAssignStep (e : SS) (fields : List (String × JVal)) (st : St) (p : String × String) : St :=
  match alGet fields p.2 with
  | some w =>
    { st with store := alSet st.store p.1 (.plain (.jv w)),
              sess := alSet st.sess (e.KEY_PREFIX ++ p.1) (jstringify w) }
  | none => st

/-- The IDO-restore phase of `restore`: read the orchestrator IDO record from
localStorage; skip it when absent, empty (falsy) or the `"undefined"`
sentinel; a parse failure is caught and logged; otherwise map every
configured shared property back from the record. -/
def restoreIdoPhase (e : SS) (orchNs : String) (idl : List (String × String)) (st : St) : St :=
  match alGet st.loc (featureIdoKey orchNs e.KEY_PREFIX) with
  | none => st
  | some s =>
    if s = "" ∨ s = "undefined" then st
    else
      match jparse s with
      | none => { st with log := st.log ++ [.errRestoreIdo] }
      | some j =>
        let fields := match j with | .obj fl => fl | _ => []
        idl.foldl (idoAssignStep e fields) st

/-- `SessionStorage.restore` of the tier-configured variant: without a
permanent configuration it only emits a diagnostic; otherwise it processes
the durable list, then the ephemeral list, then — only when the `ido`
mapping is non-empty and an orchestrator argument was passed — the IDO
record. -/
def ssRestoreRun (e : SS) (orchNs : Option String) (st : St) : St :=
  match e.permanent with
  | none => { st with log := st.log ++ [.warnNoCfgRestore] }
  | some cfg =>
    let st1 := (cfg.localStorage.getD []).foldl (restoreLocStep e) st
    let st2 := (cfg.sessionStorage.getD []).foldl (restoreSessStep e) st1
    let idl := cfg.ido.getD []
    if idl.isEmpty then st2
    else
      match orchNs with
      | none => st2
      | some op => restoreIdoPhase e op idl st2

/-- `restore` as a fallible call: it catches every per-key failure, so it
always returns normally. -/
def ssRestore (e : SS) (orchNs : Option String) (st : St) : Except St St :=
  .ok (ssRestoreRun e orchNs st)

/-- One migration step of `exit` over a namespaced sessionStorage key: a
durable key is moved (copied to localStorage when present, then removed from
sessionStorage), an ephemeral key is kept (with a diagnostic), any other key
is removed (with a diagnostic). -/
def exitMigStep (e : SS) (lk sk : List String) (st : St) (fullKey : String) : St :=
  let pk := dropNamespaceOf e.KEY_PREFIX fullKey
  if pk ∈ lk then
    let st1 : St :=
      match alGet st.sess fullKey with
      | some v => { st with loc := alSet st.loc fullKey v }
      | none => st
    { st1 with sess := alErase st1.sess fullKey }
  else if pk ∈ sk then
    { st with log := st.log ++ [.warnExitKeep pk] }
  else
    { st with sess := alErase st.sess fullKey, log := st.log ++ [.warnExitRemoved pk] }

/-- The IDO-payload assembly of `exit`: a stateful fold of `get` over the
shared mapping, collecting every defined value under its remote key. -/
def exitIdoData (e : SS) (idl : List (String × String)) (st : St) :
    List (String × Value) × St :=
  idl.foldl
    (fun acc p =>
      let r := ssGet e p.1 none acc.2
      match r.1 with
      | some v =>
        (alSet acc.1 p.2 v, { r.2 with log := r.2.log ++ [.warnExitIdoPrepared p.2] })
      | none => (acc.1, r.2))
    ([], st)

/-- `SessionStorage.exit` of the tier-configured variant: without a permanent
configuration it clears every namespaced ephemeral entry and the whole
container (`removeAll`); otherwise it migrates a snapshot of the namespaced
ephemeral keys, assembles and stores the IDO payload when the shared mapping
is non-empty and an orchestrator argument was passed (a storing error is
caught and logged), and finally drops every container key that is neither
durable nor ephemeral. -/
def ssExitRun (e : SS) (orchNs : Option String) (st : St) : St :=
  match e.permanent with
  | none =>
    { st with sess := st.sess.filter (fun p => !(strStartsWith e.KEY_PREFIX p.1)),
              store := [] }
  | some cfg =>
    let lk := cfg.localStorage.getD []
    let sk := cfg.sessionStorage.getD []
    let idl := cfg.ido.getD []
    let allKeys := (st.sess.map Prod.fst).filter (strStartsWith e.KEY_PREFIX)
    let st1 := allKeys.foldl (exitMigStep e lk sk) st
    let st2 :=
      if idl.isEmpty then st1
      else
        match orchNs with
        | none => st1
        | some op =>
          let r := exitIdoData e idl st1
          if r.1.isEmpty then r.2
          else
            match tryStringifyBag r.1 with
            | .ok s => { r.2 with loc := alSet r.2.loc (featureIdoKey op e.KEY_PREFIX) s }
            | .error _ => { r.2 with log := r.2.log ++ [.errExitIdoStore] }
    { st2 with store := st2.store.filter (fun p => decide (p.1 ∈ lk) || decide (p.1 ∈ sk)) }

/-- `exit` as a fallible call: its only serialization site is inside a
try/catch, so it always returns normally. -/
def ssExit (e : SS) (orchNs : Option String) (st : St) : Except St St :=
  .ok (ssExitRun e orchNs st)

/-- One durable step of `init`: when the container entry is defined (not JS
`undefined`/`null`), serialize its unwrapped value into localStorage; a
serialization error is caught and logged. -/
def initLocStep (e : SS) (st : St) (key : String) : St :=
  match alGet st.store key with
  | none => st
  | some c =>
    if cellLive c then
      match tryStringify (cellValue c) with
      | .ok s => { st with loc := alSet st.loc (e.KEY_PREFIX ++ key) s }
      | .error _ => { st with log := st.log ++ [.errInitLoc key] }
    else st

/-- One ephemeral step of `init`: like the durable step but targeting
sessionStorage, with a skip diagnostic for an undefined/null entry. -/
def initSessStep (e : SS) (st : St) (key : String) : St :=
  match alGet st.store key with
  | some c =>
    if cellLive c then
      match tryStringify (cellValue c) with
      | .ok s => { st with sess := alSet st.sess (e.KEY_PREFIX ++ key) s }
      | .error _ => { st with log := st.log ++ [.errInitSess key] }
    else { st with log := st.log ++ [.warnInitSkip key] }
  | none => { st with log := st.log ++ [.warnInitSkip key] }

/-- The IDO payload `init` assembles from the container's defined entries. -/
def initIdoData (store : List (String × Cell)) (idl : List (String × String)) :
    List (String × Value) :=
  idl.foldl
    (fun acc p =>
      match alGet store p.1 with
      | some c => if cellLive c then alSet acc p.2 (cellValue c) else acc
      | none => acc)
    []

/-- `SessionStorage.init` of the tier-configured variant: without a permanent
configuration it only emits a diagnostic; otherwise it publishes the current
container values into localStorage and sessionStorage per the configuration,
and writes the IDO payload when the shared mapping is non-empty and an
orchestrator argument was passed; every serialization error is caught and
logged. -/
def ssInitRun (e : SS) (orchNs : Option String) (st : St) : St :=
  match e.permanent with
  | none => { st with log := st.log ++ [.warnNoCfgInit] }
  | some cfg =>
    let st1 := (cfg.localStorage.getD []).foldl (initLocStep e) st
    let st2 := (cfg.sessionStorage.getD []).foldl (initSessStep e) st1
    let idl := cfg.ido.getD []
    if idl.isEmpty then st2
    else
      match orchNs with
      | none => st2
      | some op =>
        let d := initIdoData st2.store idl
        if d.isEmpty then st2
        else
          match tryStringifyBag d with
          | .ok s => { st2 with loc := alSet st2.loc (featureIdoKey op e.KEY_PREFIX) s }
          | .error _ => { st2 with log := st2.log ++ [.errInitIdoStore] }

/-- `init` as a fallible call: every serialization site is inside a try/catch,
so it always returns normally. -/
def ssInit (e : SS) (orchNs : Option String) (st : St) : Except St St :=
  .ok (ssInitRun e orchNs st)

theorem alGet_alSetGo {α : Type} (k : String) (v : α) (l : List (String × α))
    (h : ∃ p ∈ l, p.1 = k) : alGet (alSetGo k v l) k = some v := by
  induction l with
  | nil => simp at h
  | cons p ps ih =>
    by_cases hp : p.1 = k
    · simp [alSetGo, hp, alGet]
    · have h2 : ∃ q ∈ ps, q.1 = k := by
        rcases h with ⟨q, hq, hqk⟩
        rcases List.mem_cons.mp hq with rfl | hq2
        · exact absurd hqk hp
        · exact ⟨q, hq2, hqk⟩
      simp [alSetGo, hp, alGet, ih h2]

theorem alGet_append_of_not_mem {α : Type} (l : List (String × α)) (k : String) (v : α)
    (h : ∀ p ∈ l, p.1 ≠ k) : alGet (l ++ [(k, v)]) k = some v := by
  induction l with
  | nil => simp [alGet]
  | cons p ps ih =>
    have hp := h p (by simp)
    simp only [List.cons_append, alGet, if_neg hp]
    exact ih (fun q hq => h q (by simp [hq]))

theorem alGet_alSet_self {α : Type} (l : List (String × α)) (k : String) (v : α) :
    alGet (alSet l k v) k = some v := by
  unfold alSet
  split
  case isTrue h =>
    apply alGet_alSetGo
    simpa using h
  case isFalse h =>
    apply alGet_append_of_not_mem
    intro p hp
    simp only [List.any_eq_true, decide_eq_true_eq, not_exists, not_and] at h
    exact h p hp

theorem alGet_alSetGo_ne {α : Type} (k k' : String) (v : α) (l : List (String × α))
    (h : k' ≠ k) : alGet (alSetGo k v l) k' = alGet l k' := by
  induction l with
  | nil => rfl
  | cons p ps ih =>
    by_cases hp : p.1 = k
    · have hk : ¬(k = k') := fun hh => h hh.symm
      have hpk : ¬(p.1 = k') := by rw [hp]; exact hk
      simp only [alSetGo, if_pos hp, alGet, if_neg hk, if_neg hpk]
      exact ih
    · by_cases hpk : p.1 = k'
      · simp only [alSetGo, if_neg hp, alGet, if_pos hpk]
      · simp only [alSetGo, if_neg hp, alGet, if_neg hpk]
        exact ih

theorem alGet_append_single_ne {α : Type} (l : List (String × α)) (k k' : String) (v : α)
    (h : k' ≠ k) : alGet (l ++ [(k, v)]) k' = alGet l k' := by
  induction l with
  | nil =>
    simp only [List.nil_append, alGet, if_neg (show ¬(k = k') from fun hh => h hh.symm)]
  | cons p ps ih =>
    by_cases hp : p.1 = k'
    · simp only [List.cons_append, alGet, if_pos hp]
    · simp only [List.cons_append, alGet, if_neg hp]
      exact ih

theorem alGet_alSet_ne {α : Type} (l : List (String × α)) (k k' : String) (v : α)
    (h : k' ≠ k) : alGet (alSet l k v) k' = alGet l k' := by
  unfold alSet
  split
  · exact alGet_alSetGo_ne k k' v l h
  · exact alGet_append_single_ne l k k' v h

theorem alErase_cons_self {α : Type} (p : String × α) (ps : List (String × α)) (k : String)
    (hp : p.1 = k) : alErase (p :: ps) k = alErase ps k := by
  simp [alErase, List.filter_cons, hp]

theorem alErase_cons_ne {α : Type} (p : String × α) (ps : List (String × α)) (k : String)
    (hp : ¬(p.1 = k)) : alErase (p :: ps) k = p :: alErase ps k := by
  simp [alErase, List.filter_cons, hp]

theorem alGet_alErase_self {α : Type} (l : List (String × α)) (k : String) :
    alGet (alErase l k) k = none := by
  induction l with
  | nil => rfl
  | cons p ps ih =>
    by_cases hp : p.1 = k
    · rw [alErase_cons_self p ps k hp]
      exact ih
    · rw [alErase_cons_ne p ps k hp]
      simp only [alGet, if_neg hp]
      exact ih

theorem alGet_alErase_ne {α : Type} (l : List (String × α)) (k k' : String)
    (h : k' ≠ k) : alGet (alErase l k) k' = alGet l k' := by
  induction l with
  | nil => rfl
  | cons p ps ih =>
    by_cases hp : p.1 = k
    · have hpk : ¬(p.1 = k') := by rw [hp]; exact fun hh => h hh.symm
      rw [alErase_cons_self p ps k hp, ih]
      simp only [alGet, if_neg hpk]
    · rw [alErase_cons_ne p ps k hp]
      by_cases hpk : p.1 = k'
      · simp only [alGet, if_pos hpk]
      · simp only [alGet, if_neg hpk]
        exact ih

theorem mem_of_alGet {α : Type} (l : List (String × α)) (k : String) (v : α)
    (h : alGet l k = some v) : k ∈ l.map Prod.fst := by
  induction l with
  | nil => simp [alGet] at h
  | cons p ps ih =>
    by_cases hp : p.1 = k
    · simp [← hp]
    · simp only [alGet, if_neg hp] at h
      simp [ih h]

theorem isPrefixOf_self_append (l m : List Char) : l.isPrefixOf (l ++ m) = true := by
  induction l with
  | nil => simp [List.isPrefixOf]
  | cons c cs ih => simp [List.isPrefixOf, ih]

theorem nsKey_inj {p a b : String} (h : p ++ a = p ++ b) : a = b := by
  have hd : p.data ++ a.data = p.data ++ b.data := by
    have h2 := congrArg String.data h
    simpa [String.data_append] using h2
  have h3 : a.data = b.data := List.append_cancel_left hd
  cases a; cases b
  exact congrArg String.mk h3

theorem strStartsWith_nsKey (p k : String) : strStartsWith p (p ++ k) = true := by
  unfold strStartsWith
  rw [String.data_append]
  exact isPrefixOf_self_append _ _

theorem dropNamespaceOf_nsKey (p k : String) : dropNamespaceOf p (p ++ k) = k := by
  unfold dropNamespaceOf
  rw [String.data_append, List.drop_left]

theorem containerValue_containerSet_self (store : List (String × Cell)) (k : String) (v : Value) :
    containerValue (containerSet store k v) k = some v := by
  unfold containerSet containerValue
  rcases h : alGet store k with _ | c
  · simp [alGet_alSet_self, cellValue]
  · cases c <;> simp [alGet_alSet_self, cellValue]

theorem alGet_containerSet_ne (store : List (String × Cell)) (k k' : String) (v : Value)
    (h : k' ≠ k) : alGet (containerSet store k v) k' = alGet store k' := by
  unfold containerSet
  rcases hg : alGet store k with _ | c
  · exact alGet_alSet_ne store k k' _ h
  · cases c <;> exact alGet_alSet_ne store k k' _ h

theorem restoreLocStep_loc (e : SS) (st : St) (k : String) :
    (restoreLocStep e st k).loc = st.loc := by
  unfold restoreLocStep
  split
  · rfl
  · split
    · rfl
    · split <;> rfl

theorem restoreLocStep_frame (e : SS) (st : St) (k k' : String) (h : k ≠ k') :
    alGet (restoreLocStep e st k').sess (e.KEY_PREFIX ++ k) = alGet st.sess (e.KEY_PREFIX ++ k) ∧
    alGet (restoreLocStep e st k').store k = alGet st.store k := by
  have hK : e.KEY_PREFIX ++ k ≠ e.KEY_PREFIX ++ k' := fun hh => h (nsKey_inj hh)
  unfold restoreLocStep
  split
  · exact ⟨rfl, rfl⟩
  · split
    · exact ⟨rfl, rfl⟩
    · split
      · exact ⟨alGet_alSet_ne _ _ _ _ hK, alGet_alSet_ne _ _ _ _ h⟩
      · exact ⟨alGet_alSet_ne _ _ _ _ hK, rfl⟩

theorem restoreLocStep_sentinel (e : SS) (st : St) (k : String)
    (h : alGet st.loc (e.KEY_PREFIX ++ k) = some "undefined") :
    restoreLocStep e st k = st := by
  unfold restoreLocStep
  rw [h]
  simp

theorem restoreLocStep_bad (e : SS) (st : St) (k s : String)
    (hl : alGet st.loc (e.KEY_PREFIX ++ k) = some s) (hs : ¬(s = "undefined"))
    (hb : jparse s = none) :
    (restoreLocStep e st k).store = st.store ∧
    alGet (restoreLocStep e st k).sess (e.KEY_PREFIX ++ k) = some s := by
  unfold restoreLocStep
  rw [hl]
  dsimp only
  rw [if_neg hs, hb]
  exact ⟨rfl, alGet_alSet_self _ _ _⟩

theorem locLoop_loc (e : SS) (ks : List String) (st : St) :
    (ks.foldl (restoreLocStep e) st).loc = st.loc := by
  induction ks generalizing st with
  | nil => rfl
  | cons k ks ih =>
    rw [List.foldl_cons, ih, restoreLocStep_loc]

theorem locLoop_frame (e : SS) (ks : List String) (st : St) (k : String) (h : k ∉ ks) :
    alGet ((ks.foldl (restoreLocStep e) st)).sess (e.KEY_PREFIX ++ k)
        = alGet st.sess (e.KEY_PREFIX ++ k) ∧
    alGet ((ks.foldl (restoreLocStep e) st)).store k = alGet st.store k := by
  induction ks generalizing st with
  | nil => exact ⟨rfl, rfl⟩
  | cons k' ks ih =>
    have hne : k ≠ k' := fun hh => h (by simp [hh])
    have hstep := restoreLocStep_frame e st k k' hne
    have hrest := ih (restoreLocStep e st k') (fun hm => h (by simp [hm]))
    rw [List.foldl_cons]
    exact ⟨hrest.1.trans hstep.1, hrest.2.trans hstep.2⟩

theorem locLoop_sentinel (e : SS) (ks : List String) (st : St) (k : String)
    (h : alGet st.loc (e.KEY_PREFIX ++ k) = some "undefined") :
    alGet ((ks.foldl (restoreLocStep e) st)).sess (e.KEY_PREFIX ++ k)
        = alGet st.sess (e.KEY_PREFIX ++ k) ∧
    alGet ((ks.foldl (restoreLocStep e) st)).store k = alGet st.store k := by
  induction ks generalizing st with
  | nil => exact ⟨rfl, rfl⟩
  | cons k' ks ih =>
    rw [List.foldl_cons]
    by_cases hk : k' = k
    · subst hk
      rw [restoreLocStep_sentinel e st k' h]
      exact ih st h
    · have hstep := restoreLocStep_frame e st k k' (fun hh => hk hh.symm)
      have hloc2 : alGet (restoreLocStep e st k').loc (e.KEY_PREFIX ++ k)
          = some "undefined" := by rw [restoreLocStep_loc]; exact h
      have hrest := ih (restoreLocStep e st k') hloc2
      exact ⟨hrest.1.trans hstep.1, hrest.2.trans hstep.2⟩

theorem locLoop_bad_stable (e : SS) (ks : List String) (st : St) (k s : String)
    (hl : alGet st.loc (e.KEY_PREFIX ++ k) = some s) (hs : ¬(s = "undefined"))
    (hb : jparse s = none)
    (hsess : alGet st.sess (e.KEY_PREFIX ++ k) = some s) :
    alGet ((ks.foldl (restoreLocStep e) st)).sess (e.KEY_PREFIX ++ k) = some s ∧
    alGet ((ks.foldl (restoreLocStep e) st)).store k = alGet st.store k := by
  induction ks generalizing st with
  | nil => exact ⟨hsess, rfl⟩
  | cons k' ks ih =>
    rw [List.foldl_cons]
    by_cases hk : k' = k
    · subst hk
      have hstep := restoreLocStep_bad e st k' s hl hs hb
      have hloc2 : alGet (restoreLocStep e st k').loc (e.KEY_PREFIX ++ k') = some s := by
        rw [restoreLocStep_loc]; exact hl
      have hrest := ih (restoreLocStep e st k') hloc2 hstep.2
      exact ⟨hrest.1, hrest.2.trans (by rw [hstep.1])⟩
    · have hstep := restoreLocStep_frame e st k k' (fun hh => hk hh.symm)
      have hloc2 : alGet (restoreLocStep e st k').loc (e.KEY_PREFIX ++ k) = some s := by
        rw [restoreLocStep_loc]; exact hl
      have hrest := ih (restoreLocStep e st k') hloc2 (hstep.1.trans hsess)
      exact ⟨hrest.1, hrest.2.trans hstep.2⟩

theorem locLoop_bad_mem (e : SS) (ks : List String) (st : St) (k s : String)
    (hmem : k ∈ ks)
    (hl : alGet st.loc (e.KEY_PREFIX ++ k) = some s) (hs : ¬(s = "undefined"))
    (hb : jparse s = none) :
    alGet ((ks.foldl (restoreLocStep e) st)).sess (e.KEY_PREFIX ++ k) = some s ∧
    alGet ((ks.foldl (restoreLocStep e) st)).store k = alGet st.store k := by
  induction ks generalizing st with
  | nil => simp at hmem
  | cons k' ks ih =>
    rw [List.foldl_cons]
    by_cases hk : k' = k
    · subst hk
      have hstep := restoreLocStep_bad e st k' s hl hs hb
      have hloc2 : alGet (restoreLocStep e st k').loc (e.KEY_PREFIX ++ k') = some s := by
        rw [restoreLocStep_loc]; exact hl
      have hrest := locLoop_bad_stable e ks (restoreLocStep e st k') k' s hloc2 hs hb hstep.2
      exact ⟨hrest.1, hrest.2.trans (by rw [hstep.1])⟩
    · have hmem2 : k ∈ ks := by
        rcases List.mem_cons.mp hmem with rfl | hm
        · exact absurd rfl hk
        · exact hm
      have hstep := restoreLocStep_frame e st k k' (fun hh => hk hh.symm)
      have hloc2 : alGet (restoreLocStep e st k').loc (e.KEY_PREFIX ++ k) = some s := by
        rw [restoreLocStep_loc]; exact hl
      have hrest := ih (restoreLocStep e st k') hmem2 hloc2
      exact ⟨hrest.1, hrest.2.trans hstep.2⟩

theorem restoreSessStep_sess (e : SS) (st : St) (k : String) :
    (restoreSessStep e st k).sess = st.sess := by
  unfold restoreSessStep
  split
  · rfl
  · split
    · rfl
    · split <;> rfl

theorem restoreSessStep_loc (e : SS) (st : St) (k : String) :
    (restoreSessStep e st k).loc = st.loc := by
  unfold restoreSessStep
  split
  · rfl
  · split
    · rfl
    · split <;> rfl

theorem restoreSessStep_store_frame (e : SS) (st : St) (k k' : String) (h : k ≠ k') :
    alGet (restoreSessStep e st k').store k = alGet st.store k := by
  unfold restoreSessStep
  split
  · rfl
  · split
    · rfl
    · split
      · exact alGet_alSet_ne _ _ _ _ h
      · rfl

theorem restoreSessStep_good (e : SS) (st : St) (k s : String) (j : JVal)
    (hv : alGet st.sess (e.KEY_PREFIX ++ k) = some s) (hs : ¬(s = "undefined"))
    (hj : jparse s = some j) :
    alGet (restoreSessStep e st k).store k = some (.plain (.jv j)) := by
  unfold restoreSessStep
  rw [hv]
  dsimp only
  rw [if_neg hs, hj]
  exact alGet_alSet_self _ _ _

theorem restoreSessStep_noStore (e : SS) (st : St) (k : String)
    (h : ∀ s, alGet st.sess (e.KEY_PREFIX ++ k) = some s → s = "undefined" ∨ jparse s = none) :
    (restoreSessStep e st k).store = st.store := by
  unfold restoreSessStep
  rcases hv : alGet st.sess (e.KEY_PREFIX ++ k) with _ | s
  · rfl
  · dsimp only
    rcases h s hv with hs | hb
    · rw [if_pos hs]
    · by_cases hs : s = "undefined"
      · rw [if_pos hs]
      · rw [if_neg hs, hb]

theorem sessLoop_sess (e : SS) (ks : List String) (st : St) :
    (ks.foldl (restoreSessStep e) st).sess = st.sess := by
  induction ks generalizing st with
  | nil => rfl
  | cons k ks ih => rw [List.foldl_cons, ih, restoreSessStep_sess]

theorem sessLoop_loc (e : SS) (ks : List String) (st : St) :
    (ks.foldl (restoreSessStep e) st).loc = st.loc := by
  induction ks generalizing st with
  | nil => rfl
  | cons k ks ih => rw [List.foldl_cons, ih, restoreSessStep_loc]

theorem sessLoop_noStoreKey (e : SS) (ks : List String) (st : St) (k : String)
    (h : ∀ s, alGet st.sess (e.KEY_PREFIX ++ k) = some s → s = "undefined" ∨ jparse s = none) :
    alGet ((ks.foldl (restoreSessStep e) st)).store k = alGet st.store k := by
  induction ks generalizing st with
  | nil => rfl
  | cons k' ks ih =>
    rw [List.foldl_cons]
    have hsess : (restoreSessStep e st k').sess = st.sess := restoreSessStep_sess e st k'
    have h2 : ∀ s, alGet (restoreSessStep e st k').sess (e.KEY_PREFIX ++ k) = some s →
        s = "undefined" ∨ jparse s = none := by
      intro s hms
      exact h s (by rw [← hsess]; exact hms)
    by_cases hk : k' = k
    · subst hk
      have hstep := restoreSessStep_noStore e st k' h
      have := ih (restoreSessStep e st k') h2
      rw [this, hstep]
    · have hstep := restoreSessStep_store_frame e st k k' (fun hh => hk hh.symm)
      exact (ih (restoreSessStep e st k') h2).trans hstep

theorem sessLoop_good_stable (e : SS) (ks : List String) (st : St) (k s : String) (j : JVal)
    (hv : alGet st.sess (e.KEY_PREFIX ++ k) = some s) (hs : ¬(s = "undefined"))
    (hj : jparse s = some j)
    (hst : alGet st.store k = some (.plain (.jv j))) :
    alGet ((ks.foldl (restoreSessStep e) st)).store k = some (.plain (.jv j)) := by
  induction ks generalizing st with
  | nil => exact hst
  | cons k' ks ih =>
    rw [List.foldl_cons]
    have hv2 : alGet (restoreSessStep e st k').sess (e.KEY_PREFIX ++ k) = some s := by
      rw [restoreSessStep_sess]; exact hv
    by_cases hk : k' = k
    · subst hk
      exact ih (restoreSessStep e st k') hv2 (restoreSessStep_good e st k' s j hv hs hj)
    · have hstep := restoreSessStep_store_frame e st k k' (fun hh => hk hh.symm)
      exact ih (restoreSessStep e st k') hv2 (hstep.trans hst)

theorem sessLoop_good_mem (e : SS) (ks : List String) (st : St) (k s : String) (j : JVal)
    (hmem : k ∈ ks)
    (hv : alGet st.sess (e.KEY_PREFIX ++ k) = some s) (hs : ¬(s = "undefined"))
    (hj : jparse s = some j) :
    alGet ((ks.foldl (restoreSessStep e) st)).store k = some (.plain (.jv j)) := by
  induction ks generalizing st with
  | nil => simp at hmem
  | cons k' ks ih =>
    rw [List.foldl_cons]
    have hv2 : alGet (restoreSessStep e st k').sess (e.KEY_PREFIX ++ k) = some s := by
      rw [restoreSessStep_sess]; exact hv
    by_cases hk : k' = k
    · subst hk
      exact sessLoop_good_stable e ks (restoreSessStep e st k') k' s j hv2 hs hj
        (restoreSessStep_good e st k' s j hv hs hj)
    · have hmem2 : k ∈ ks := by
        rcases List.mem_cons.mp hmem with rfl | hm
        · exact absurd rfl hk
        · exact hm
      exact ih (restoreSessStep e st k') hmem2 hv2

theorem idoAssignStep_store_frame (e : SS) (fields : List (String × JVal)) (st : St)
    (p : String × String) (k : String) (h : ¬(p.1 = k)) :
    alGet (idoAssignStep e fields st p).store k = alGet st.store k := by
  unfold idoAssignStep
  split
  · exact alGet_alSet_ne _ _ _ _ (fun hh => h hh.symm)
  · rfl

theorem idoAssignStep_self (e : SS) (fields : List (String × JVal)) (st : St)
    (k rk : String) (w : JVal) (hw : alGet fields rk = some w) :
    alGet (idoAssignStep e fields st (k, rk)).store k = some (.plain (.jv w)) := by
  unfold idoAssignStep
  rw [hw]
  exact alGet_alSet_self _ _ _

theorem idoFold_frame (e : SS) (fields : List (String × JVal)) (idl : List (String × String))
    (st : St) (k : String) (h : ∀ p ∈ idl, ¬(p.1 = k)) :
    alGet ((idl.foldl (idoAssignStep e fields) st)).store k = alGet st.store k := by
  induction idl generalizing st with
  | nil => rfl
  | cons p ps ih =>
    rw [List.foldl_cons]
    have hstep := idoAssignStep_store_frame e fields st p k (h p (by simp))
    exact (ih (idoAssignStep e fields st p) (fun q hq => h q (by simp [hq]))).trans hstep

theorem idoFold_mem (e : SS) (fields : List (String × JVal)) (idl : List (String × String))
    (st : St) (k rk : String) (w : JVal)
    (hmem : (k, rk) ∈ idl) (hnd : (idl.map Prod.fst).Nodup)
    (hw : alGet fields rk = some w) :
    alGet ((idl.foldl (idoAssignStep e fields) st)).store k = some (.plain (.jv w)) := by
  induction idl generalizing st with
  | nil => simp at hmem
  | cons p ps ih =>
    rw [List.foldl_cons]
    have hnd2 := hnd
    rw [List.map_cons, List.nodup_cons] at hnd2
    by_cases hpk : p.1 = k
    · have hpe : p = (k, rk) := by
        rcases List.mem_cons.mp hmem with rfl | hmem2
        · rfl
        · exfalso
          apply hnd2.1
          rw [hpk]
          exact List.mem_map.mpr ⟨(k, rk), hmem2, rfl⟩
      subst hpe
      have hrest : ∀ q ∈ ps, ¬(q.1 = k) := by
        intro q hq hqk
        apply hnd2.1
        exact List.mem_map.mpr ⟨q, hq, hqk⟩
      rw [idoFold_frame e fields ps _ k hrest]
      exact idoAssignStep_self e fields st k rk w hw
    · have hmem2 : (k, rk) ∈ ps := by
        rcases List.mem_cons.mp hmem with rfl | hm
        · exact absurd rfl hpk
        · exact hm
      exact ih (idoAssignStep e fields st p) hmem2 hnd2.2

/-- C7: a `SessionStorage` constructed without a permanent (tier) configuration
performs no work in `restore`: for every state and every orchestrator
argument, the call returns normally and the resulting state is the input
state with exactly one diagnostic appended — in particular every container
value, both backends and the orchestrator bag are unchanged. -/
theorem restore_zero_config_noop (ns : String) (o : Option String) (st : St) :
    ssRestore ⟨ns, none⟩ o st
      = .ok { st with log := st.log ++ [LogEntry.warnNoCfgRestore] } := rfl

/-- C10: during `restore`, a durable (localStorage-configured) key whose stored
string is present and not the `"undefined"` sentinel is mirrored raw into the
ephemeral backend before `JSON.parse` is attempted, so a malformed durable
entry ends up verbatim in sessionStorage while the container value for that
key is left unchanged. -/
theorem restore_durable_mirrors_before_parsing (ns k s : String) (cfg : PermCfg) (st : St)
    (hk : k ∈ cfg.localStorage.getD [])
    (hv : alGet st.loc (ns ++ k) = some s)
    (hs : ¬(s = "undefined"))
    (hbad : jparse s = none) :
    alGet (ssRestoreRun ⟨ns, some cfg⟩ none st).sess (ns ++ k) = some s ∧
    alGet (ssRestoreRun ⟨ns, some cfg⟩ none st).store k = alGet st.store k := by
  simp only [ssRestoreRun]
  rw [ite_self]
  have h1 := locLoop_bad_mem ⟨ns, some cfg⟩ (cfg.localStorage.getD []) st k s hk hv hs hbad
  have hsessEq := sessLoop_sess ⟨ns, some cfg⟩ (cfg.sessionStorage.getD [])
    ((cfg.localStorage.getD []).foldl (restoreLocStep ⟨ns, some cfg⟩) st)
  constructor
  · rw [hsessEq]
    exact h1.1
  · have h2 := sessLoop_noStoreKey ⟨ns, some cfg⟩ (cfg.sessionStorage.getD [])
      ((cfg.localStorage.getD []).foldl (restoreLocStep ⟨ns, some cfg⟩) st) k
      (by
        intro s2 hs2
        rw [h1.1] at hs2
        right
        rw [← Option.some_inj.mp hs2]
        exact hbad)
    rw [h2]
    exact h1.2

/-- C10 witness: a concrete malformed durable entry is mirrored verbatim into
the ephemeral backend while the container keeps its signal untouched. -/
theorem restore_durable_mirrors_before_parsing_witness :
    alGet (ssRestoreRun ⟨"P-", some ⟨some ["k"], none, none⟩⟩ none
      ⟨[], [("P-k", "\x7bbad")], [("k", .signal (.jv (.num 1)))], [], []⟩).sess "P-k"
        = some "\x7bbad" ∧
    alGet (ssRestoreRun ⟨"P-", some ⟨some ["k"], none, none⟩⟩ none
      ⟨[], [("P-k", "\x7bbad")], [("k", .signal (.jv (.num 1)))], [], []⟩).store "k"
        = alGet (⟨[], [("P-k", "\x7bbad")], [("k", .signal (.jv (.num 1)))], [], []⟩ : St).store "k" :=
  restore_durable_mirrors_before_parsing "P-" "k" "\x7bbad" ⟨some ["k"], none, none⟩
    ⟨[], [("P-k", "\x7bbad")], [("k", .signal (.jv (.num 1)))], [], []⟩
    (by simp) rfl (by simp) rfl

/-- C4: per-key failure isolation in `restore`: with two ephemeral-configured
keys `a` (valid JSON stored) and `b` (malformed JSON stored), neither of
them durable-configured, `restore` returns normally, hydrates `a` with the
parsed value, and leaves `b`'s container entry exactly as it was. -/
theorem restore_per_key_isolation (ns a b sa sb : String) (cfg : PermCfg) (st : St) (ja : JVal)
    (ha : a ∈ cfg.sessionStorage.getD [])
    (hb : b ∈ cfg.sessionStorage.getD [])
    (hal : a ∉ cfg.localStorage.getD [])
    (hbl : b ∉ cfg.localStorage.getD [])
    (hsa : alGet st.sess (ns ++ a) = some sa)
    (hsaok : ¬(sa = "undefined"))
    (hja : jparse sa = some ja)
    (hsb : alGet st.sess (ns ++ b) = some sb)
    (hjb : jparse sb = none) :
    (∃ st2, ssRestore ⟨ns, some cfg⟩ none st = .ok st2) ∧
    containerValue (ssRestoreRun ⟨ns, some cfg⟩ none st).store a = some (.jv ja) ∧
    alGet (ssRestoreRun ⟨ns, some cfg⟩ none st).store b = alGet st.store b := by
  refine ⟨⟨_, rfl⟩, ?_, ?_⟩ <;> simp only [ssRestoreRun] <;> rw [ite_self]
  · have hfa := locLoop_frame ⟨ns, some cfg⟩ (cfg.localStorage.getD []) st a hal
    have h2 := sessLoop_good_mem ⟨ns, some cfg⟩ (cfg.sessionStorage.getD [])
      ((cfg.localStorage.getD []).foldl (restoreLocStep ⟨ns, some cfg⟩) st) a sa ja ha
      (hfa.1.trans hsa) hsaok hja
    unfold containerValue
    rw [h2]
    rfl
  · have hfb := locLoop_frame ⟨ns, some cfg⟩ (cfg.localStorage.getD []) st b hbl
    have h2 := sessLoop_noStoreKey ⟨ns, some cfg⟩ (cfg.sessionStorage.getD [])
      ((cfg.localStorage.getD []).foldl (restoreLocStep ⟨ns, some cfg⟩) st) b
      (by
        intro s2 hs2
        rw [hfb.1.trans hsb] at hs2
        right
        rw [← Option.some_inj.mp hs2]
        exact hjb)
    rw [h2]
    exact hfb.2

/-- C4 witness: with ephemeral keys `a` (valid `"5"`) and `b` (malformed),
restore hydrates `a` and leaves `b`'s container entry alone. -/
theorem restore_per_key_isolation_witness :
    (∃ st2, ssRestore ⟨"P-", some ⟨none, some ["a", "b"], none⟩⟩ none
      ⟨[("P-a", "5"), ("P-b", "\x7bbad")], [], [("b", .plain (.jv (.bool true)))], [], []⟩
        = .ok st2) ∧
    containerValue (ssRestoreRun ⟨"P-", some ⟨none, some ["a", "b"], none⟩⟩ none
      ⟨[("P-a", "5"), ("P-b", "\x7bbad")], [], [("b", .plain (.jv (.bool true)))], [], []⟩).store "a"
        = some (.jv (.num 5)) ∧
    alGet (ssRestoreRun ⟨"P-", some ⟨none, some ["a", "b"], none⟩⟩ none
      ⟨[("P-a", "5"), ("P-b", "\x7bbad")], [], [("b", .plain (.jv (.bool true)))], [], []⟩).store "b"
        = alGet (⟨[("P-a", "5"), ("P-b", "\x7bbad")], [], [("b", .plain (.jv (.bool true)))], [], []⟩ : St).store "b" :=
  restore_per_key_isolation "P-" "a" "b" "5" "\x7bbad" ⟨none, some ["a", "b"], none⟩
    ⟨[("P-a", "5"), ("P-b", "\x7bbad")], [], [("b", .plain (.jv (.bool true)))], [], []⟩
    (.num 5) (by simp) (by simp) (by simp) (by simp) rfl (by simp) rfl rfl rfl

/-- C1: restore precedence: when a key is configured both ephemeral and shared,
the ephemeral backend holds a (parsable) value for it, and the orchestrator
IDO record (read with an orchestrator argument) maps its remote key to a
defined, different value, the post-restore container value for the key is
the orchestrator's value — the shared phase runs last and overrides. -/
theorem restore_shared_overrides_ephemeral (ns op k rk sv srec : String) (cfg : PermCfg)
    (st : St) (idl : List (String × String)) (fl : List (String × JVal)) (jv0 w : JVal)
    (hk : k ∈ cfg.sessionStorage.getD [])
    (hido : cfg.ido = some idl)
    (hkid : (k, rk) ∈ idl)
    (hnd : (idl.map Prod.fst).Nodup)
    (hsv : alGet st.sess (ns ++ k) = some sv)
    (hpv : jparse sv = some jv0)
    (hrec : alGet st.loc (featureIdoKey op ns) = some srec)
    (hrecp : jparse srec = some (.obj fl))
    (hw : alGet fl rk = some w)
    (hne : jv0 ≠ w) :
    containerValue (ssRestoreRun ⟨ns, some cfg⟩ (some op) st).store k = some (.jv w) := by
  have hrec1 : ¬(srec = "") := by
    intro hh
    rw [hh] at hrecp
    rw [show jparse "" = none from rfl] at hrecp
    exact Option.noConfusion hrecp
  have hrec2 : ¬(srec = "undefined") := by
    intro hh
    rw [hh] at hrecp
    rw [show jparse "undefined" = none from rfl] at hrecp
    exact Option.noConfusion hrecp
  have hie : ¬((cfg.ido.getD []).isEmpty = true) := by
    rw [hido]
    cases idl with
    | nil => simp at hkid
    | cons p ps => simp
  simp only [ssRestoreRun]
  rw [if_neg hie]
  have hloc2 : alGet ((cfg.sessionStorage.getD []).foldl (restoreSessStep ⟨ns, some cfg⟩)
      ((cfg.localStorage.getD []).foldl (restoreLocStep ⟨ns, some cfg⟩) st)).loc
      (featureIdoKey op ns) = some srec := by
    rw [sessLoop_loc, locLoop_loc]
    exact hrec
  unfold restoreIdoPhase
  rw [hido]
  simp only [Option.getD_some]
  rw [hloc2]
  dsimp only
  rw [if_neg (by
    intro hh
    rcases hh with hh | hh
    · exact hrec1 hh
    · exact hrec2 hh), hrecp]
  dsimp only
  unfold containerValue
  rw [idoFold_mem ⟨ns, some cfg⟩ fl idl _ k rk w hkid hnd hw]
  rfl

/-- C1 witness: ephemeral holds `true` for `k`, the orchestrator IDO record
maps `r` to `2`; after restore with an orchestrator the container holds `2`. -/
theorem restore_shared_overrides_ephemeral_witness :
    containerValue (ssRestoreRun ⟨"A-", some ⟨none, some ["k"], some [("k", "r")]⟩⟩ (some "O-")
      ⟨[("A-k", "true")], [("O-aIdo", "\x7b\"r\":2\x7d")], [], [], []⟩).store "k"
      = some (.jv (.num 2)) :=
  restore_shared_overrides_ephemeral "A-" "O-" "k" "r" "true" "\x7b\"r\":2\x7d"
    ⟨none, some ["k"], some [("k", "r")]⟩
    ⟨[("A-k", "true")], [("O-aIdo", "\x7b\"r\":2\x7d")], [], [], []⟩
    [("k", "r")] [("r", .num 2)] (.bool true) (.num 2)
    (by simp) rfl (by simp) (by simp) rfl rfl rfl rfl rfl
    (fun hh => JVal.noConfusion hh)

/-- C5 counterexample: the stored literal string `"null"` is NOT treated as an
absent sentinel: at a concrete configured ephemeral key whose backend entry
is `"null"`, `restore` parses it and overwrites the container value (here
`7`) with JSON null, contradicting the claim that the container value is
left unchanged and the string never deserialized. -/
theorem sentinel_null_is_parsed_counterexample :
    alGet (ssRestoreRun ⟨"P-", some ⟨none, some ["x"], none⟩⟩ none
      ⟨[("P-x", "null")], [], [("x", .plain (.jv (.num 7)))], [], []⟩).store "x"
        = some (.plain (.jv .null)) ∧
    alGet (⟨[("P-x", "null")], [], [("x", .plain (.jv (.num 7)))], [], []⟩ : St).store "x"
        = some (.plain (.jv (.num 7))) :=
  ⟨rfl, rfl⟩

/-- C5 (amended): only the literal string `"undefined"` is an absence sentinel:
whenever both backends hold `"undefined"` for a configured key, `get`
returns the default and changes nothing, and `restore` leaves the
container's entry for that key unchanged — the string is never passed to
`JSON.parse`.  (The literal `"null"` is not special: it is parsed as JSON
null and assigned.) -/
theorem sentinel_undefined_skipped (ns k : String) (cfg : PermCfg) (dflt : Option Value) (st : St)
    (hsess : alGet st.sess (ns ++ k) = some "undefined")
    (hloc : alGet st.loc (ns ++ k) = some "undefined") :
    ssGet ⟨ns, some cfg⟩ k dflt st = (dflt, st) ∧
    alGet (ssRestoreRun ⟨ns, some cfg⟩ none st).store k = alGet st.store k := by
  constructor
  · unfold ssGet
    rw [hsess]
    dsimp only
    rw [if_pos rfl]
  · simp only [ssRestoreRun]
    rw [ite_self]
    have h1 := locLoop_sentinel ⟨ns, some cfg⟩ (cfg.localStorage.getD []) st k hloc
    have h2 := sessLoop_noStoreKey ⟨ns, some cfg⟩ (cfg.sessionStorage.getD [])
      ((cfg.localStorage.getD []).foldl (restoreLocStep ⟨ns, some cfg⟩) st) k
      (by
        intro s2 hs2
        rw [h1.1.trans hsess] at hs2
        left
        exact (Option.some_inj.mp hs2).symm)
    rw [h2]
    exact h1.2

theorem exitMigStep_frame (e : SS) (lk sk : List String) (st : St) (fk K : String)
    (h : K ≠ fk) :
    alGet (exitMigStep e lk sk st fk).loc K = alGet st.loc K ∧
    alGet (exitMigStep e lk sk st fk).sess K = alGet st.sess K := by
  unfold exitMigStep
  dsimp only
  by_cases h1 : dropNamespaceOf e.KEY_PREFIX fk ∈ lk
  · rw [if_pos h1]
    rcases hsv : alGet st.sess fk with _ | v
    · exact ⟨rfl, alGet_alErase_ne _ _ _ h⟩
    · exact ⟨alGet_alSet_ne _ _ _ _ h, alGet_alErase_ne _ _ _ h⟩
  · rw [if_neg h1]
    by_cases h2 : dropNamespaceOf e.KEY_PREFIX fk ∈ sk
    · rw [if_pos h2]
      exact ⟨rfl, rfl⟩
    · rw [if_neg h2]
      exact ⟨rfl, alGet_alErase_ne _ _ _ h⟩

theorem exitMigStep_move (e : SS) (lk sk : List String) (st : St) (k s : String)
    (hk : k ∈ lk) (hs : alGet st.sess (e.KEY_PREFIX ++ k) = some s) :
    alGet (exitMigStep e lk sk st (e.KEY_PREFIX ++ k)).loc (e.KEY_PREFIX ++ k) = some s ∧
    alGet (exitMigStep e lk sk st (e.KEY_PREFIX ++ k)).sess (e.KEY_PREFIX ++ k) = none := by
  simp only [exitMigStep, dropNamespaceOf_nsKey]
  rw [if_pos hk, hs]
  dsimp only
  exact ⟨alGet_alSet_self _ _ _, alGet_alErase_self _ _⟩

theorem exitMigStep_keepGone (e : SS) (lk sk : List String) (st : St) (k s : String)
    (hk : k ∈ lk) (hn : alGet st.sess (e.KEY_PREFIX ++ k) = none)
    (hl : alGet st.loc (e.KEY_PREFIX ++ k) = some s) :
    alGet (exitMigStep e lk sk st (e.KEY_PREFIX ++ k)).loc (e.KEY_PREFIX ++ k) = some s ∧
    alGet (exitMigStep e lk sk st (e.KEY_PREFIX ++ k)).sess (e.KEY_PREFIX ++ k) = none := by
  simp only [exitMigStep, dropNamespaceOf_nsKey]
  rw [if_pos hk, hn]
  dsimp only
  exact ⟨hl, alGet_alErase_self _ _⟩

theorem migLoop_keep (e : SS) (lk sk ks : List String) (st : St) (k s : String)
    (hk : k ∈ lk)
    (hn : alGet st.sess (e.KEY_PREFIX ++ k) = none)
    (hl : alGet st.loc (e.KEY_PREFIX ++ k) = some s) :
    alGet ((ks.foldl (exitMigStep e lk sk) st)).loc (e.KEY_PREFIX ++ k) = some s ∧
    alGet ((ks.foldl (exitMigStep e lk sk) st)).sess (e.KEY_PREFIX ++ k) = none := by
  induction ks generalizing st with
  | nil => exact ⟨hl, hn⟩
  | cons fk ks ih =>
    rw [List.foldl_cons]
    by_cases hfk : fk = e.KEY_PREFIX ++ k
    · subst hfk
      have hstep := exitMigStep_keepGone e lk sk st k s hk hn hl
      exact ih _ hstep.2 hstep.1
    · have hstep := exitMigStep_frame e lk sk st fk _ (fun hh => hfk hh.symm)
      exact ih _ (hstep.2.trans hn) (hstep.1.trans hl)

theorem migLoop_move (e : SS) (lk sk ks : List String) (st : St) (k s : String)
    (hk : k ∈ lk)
    (hmem : (e.KEY_PREFIX ++ k) ∈ ks)
    (hs : alGet st.sess (e.KEY_PREFIX ++ k) = some s) :
    alGet ((ks.foldl (exitMigStep e lk sk) st)).loc (e.KEY_PREFIX ++ k) = some s ∧
    alGet ((ks.foldl (exitMigStep e lk sk) st)).sess (e.KEY_PREFIX ++ k) = none := by
  induction ks generalizing st with
  | nil => simp at hmem
  | cons fk ks ih =>
    rw [List.foldl_cons]
    by_cases hfk : fk = e.KEY_PREFIX ++ k
    · subst hfk
      have hstep := exitMigStep_move e lk sk st k s hk hs
      exact migLoop_keep e lk sk ks _ k s hk hstep.2 hstep.1
    · have hmem2 : (e.KEY_PREFIX ++ k) ∈ ks := by
        rcases List.mem_cons.mp hmem with hh | hh
        · exact absurd hh.symm hfk
        · exact hh
      have hstep := exitMigStep_frame e lk sk st fk _ (fun hh => hfk hh.symm)
      exact ih _ hmem2 (hstep.2.trans hs)

theorem ssSet_ok_sess (e : SS) (k : String) (j : JVal) (st st1 : St)
    (hset : ssSet e k (.jv j) st = .ok st1) :
    alGet st1.sess (e.KEY_PREFIX ++ k) = some (jstringify j) := by
  unfold ssSet at hset
  rcases hst : alGet st.store k with _ | c
  · rw [hst] at hset
    simp only [tryStringify, Except.ok.injEq] at hset
    rw [← hset]
    exact alGet_alSet_self _ _ _
  · cases c with
    | signal v =>
      rw [hst] at hset
      simp only [tryStringify, Except.ok.injEq] at hset
      rw [← hset]
      exact alGet_alSet_self _ _ _
    | plain v =>
      rw [hst] at hset
      simp only [tryStringify, Except.ok.injEq] at hset
      rw [← hset]
      exact alGet_alSet_self _ _ _

/-- C3: teardown migration for a durable key: after a successful `set` of a
serializable value and then `exit` (no orchestrator argument), the durable
backend holds the serialized value under the namespaced key and the
ephemeral backend no longer holds any entry for it — the entry was moved,
not copied. -/
theorem set_exit_teardown_migration (ns k : String) (j : JVal) (cfg : PermCfg) (st st1 : St)
    (hk : k ∈ cfg.localStorage.getD [])
    (hset : ssSet ⟨ns, some cfg⟩ k (.jv j) st = .ok st1) :
    alGet (ssExitRun ⟨ns, some cfg⟩ none st1).loc (ns ++ k) = some (jstringify j) ∧
    alGet (ssExitRun ⟨ns, some cfg⟩ none st1).sess (ns ++ k) = none := by
  have hsess1 : alGet st1.sess (ns ++ k) = some (jstringify j) :=
    ssSet_ok_sess ⟨ns, some cfg⟩ k j st st1 hset
  have hmem : (ns ++ k) ∈ (st1.sess.map Prod.fst).filter (strStartsWith ns) :=
    List.mem_filter.mpr ⟨mem_of_alGet _ _ _ hsess1, strStartsWith_nsKey ns k⟩
  simp only [ssExitRun]
  rw [ite_self]
  exact migLoop_move ⟨ns, some cfg⟩ (cfg.localStorage.getD []) (cfg.sessionStorage.getD [])
    ((st1.sess.map Prod.fst).filter (strStartsWith ns)) st1 k (jstringify j) hk hmem hsess1

/-- C3 witness: set then exit at a concrete durable key moves the serialized
value from the ephemeral to the durable backend. -/
theorem set_exit_teardown_migration_witness :
    alGet (ssExitRun ⟨"P-", some ⟨some ["k"], none, none⟩⟩ none
      ⟨[("P-k", "5")], [], [("k", .plain (.jv (.num 5)))], [], []⟩).loc "P-k" = some "5" ∧
    alGet (ssExitRun ⟨"P-", some ⟨some ["k"], none, none⟩⟩ none
      ⟨[("P-k", "5")], [], [("k", .plain (.jv (.num 5)))], [], []⟩).sess "P-k" = none :=
  set_exit_teardown_migration "P-" "k" (.num 5) ⟨some ["k"], none, none⟩
    ⟨[], [], [], [], []⟩
    ⟨[("P-k", "5")], [], [("k", .plain (.jv (.num 5)))], [], []⟩
    (by simp) rfl

/-- C9: with a non-empty shared (`ido`) mapping configured, calling `exit`,
`init` or `restore` without an orchestrator argument behaves exactly as the
same call with no shared mapping at all: the whole IDO transfer/restoration
step is silently skipped — same resulting state (backends, container, bag)
and same diagnostics, with no error raised. -/
theorem shared_requires_orchestrator (ns : String) (cfg : PermCfg)
    (idl : List (String × String)) (st : St)
    (hido : cfg.ido = some idl) (hne : idl ≠ []) :
    ssExitRun ⟨ns, some cfg⟩ none st
        = ssExitRun ⟨ns, some { cfg with ido := none }⟩ none st ∧
    ssInitRun ⟨ns, some cfg⟩ none st
        = ssInitRun ⟨ns, some { cfg with ido := none }⟩ none st ∧
    ssRestoreRun ⟨ns, some cfg⟩ none st
        = ssRestoreRun ⟨ns, some { cfg with ido := none }⟩ none st := by
  refine ⟨?_, ?_, ?_⟩
  · simp only [ssExitRun]
    rw [ite_self, ite_self]
    rfl
  · simp only [ssInitRun]
    rw [ite_self, ite_self]
    rfl
  · simp only [ssRestoreRun]
    rw [ite_self, ite_self]
    rfl

/-- C9 witness: a concrete engine with one shared key, called without an
orchestrator, produces in each lifecycle call the state of the ido-free
configuration. -/
theorem shared_requires_orchestrator_witness :
    ssExitRun ⟨"P-", some ⟨none, none, some [("k", "r")]⟩⟩ none
      ⟨[("P-k", "5")], [], [("k", .plain (.jv (.num 5)))], [], []⟩
      = ssExitRun ⟨"P-", some ⟨none, none, none⟩⟩ none
        ⟨[("P-k", "5")], [], [("k", .plain (.jv (.num 5)))], [], []⟩ ∧
    ssInitRun ⟨"P-", some ⟨none, none, some [("k", "r")]⟩⟩ none
      ⟨[("P-k", "5")], [], [("k", .plain (.jv (.num 5)))], [], []⟩
      = ssInitRun ⟨"P-", some ⟨none, none, none⟩⟩ none
        ⟨[("P-k", "5")], [], [("k", .plain (.jv (.num 5)))], [], []⟩ ∧
    ssRestoreRun ⟨"P-", some ⟨none, none, some [("k", "r")]⟩⟩ none
      ⟨[("P-k", "5")], [], [("k", .plain (.jv (.num 5)))], [], []⟩
      = ssRestoreRun ⟨"P-", some ⟨none, none, none⟩⟩ none
        ⟨[("P-k", "5")], [], [("k", .plain (.jv (.num 5)))], [], []⟩ :=
  shared_requires_orchestrator "P-" ⟨none, none, some [("k", "r")]⟩ [("k", "r")]
    ⟨[("P-k", "5")], [], [("k", .plain (.jv (.num 5)))], [], []⟩
    rfl (by simp)

theorem ssSet_jv_ok (e : SS) (k : String) (j : JVal) (st : St) :
    ∃ st1, ssSet e k (.jv j) st = .ok st1 ∧
      st1.sess = alSet st.sess (e.KEY_PREFIX ++ k) (jstringify j) ∧
      st1.loc = st.loc ∧
      containerValue st1.store k = some (.jv j) := by
  unfold ssSet
  rcases hst : alGet st.store k with _ | c
  · refine ⟨_, rfl, rfl, rfl, ?_⟩
    unfold containerValue
    rw [alGet_alSet_self]
    rfl
  · cases c with
    | signal v =>
      refine ⟨_, rfl, rfl, rfl, ?_⟩
      unfold containerValue
      rw [alGet_alSet_self]
      rfl
    | plain v =>
      refine ⟨_, rfl, rfl, rfl, ?_⟩
      unfold containerValue
      rw [alGet_alSet_self]
      rfl

/-- C2: the first engine variant's `set` fans a durable-configured key out to
localStorage: for a serializable value it succeeds, writes the serialized
value under the namespaced key into the ephemeral backend, updates the
container to the value, and additionally writes the same serialized value
into the durable backend under the same namespaced key
(`handlePermanentStorage`).  (In the second, tier-configured variant the
durable copy is deferred to `exit` instead.) -/
theorem setV1_durable_fanout (ns k : String) (j : JVal) (cfg : PermCfg) (ls : List String)
    (st : St) (hls : cfg.localStorage = some ls) (hk : k ∈ ls) :
    ∃ st2, ssSetV1 ⟨ns, some cfg⟩ k (.jv j) st = .ok st2 ∧
      alGet st2.sess (ns ++ k) = some (jstringify j) ∧
      alGet st2.loc (ns ++ k) = some (jstringify j) ∧
      containerValue st2.store k = some (.jv j) := by
  obtain ⟨st1, hok, hsess, hloc, hcv⟩ := ssSet_jv_ok ⟨ns, some cfg⟩ k j st
  have hS : alGet st1.sess (ns ++ k) = some (jstringify j) := by
    rw [hsess]
    exact alGet_alSet_self _ _ _
  have hL : alGet (alSet st1.loc (ns ++ k) (jstringify j)) (ns ++ k) = some (jstringify j) :=
    alGet_alSet_self _ _ _
  unfold ssSetV1
  rw [hok]
  unfold handlePermanentStorage
  dsimp only
  rw [hls]
  dsimp only
  rw [if_pos hk]
  dsimp only [tryStringify]
  rcases hido : cfg.ido with _ | idl
  · dsimp only
    exact ⟨_, rfl, hS, hL, hcv⟩
  · dsimp only
    rcases hlk : alGet idl k with _ | okey
    · dsimp only
      exact ⟨_, rfl, hS, hL, hcv⟩
    · dsimp only
      by_cases hoe : okey = ""
      · rw [if_pos hoe]
        exact ⟨_, rfl, hS, hL, hcv⟩
      · rw [if_neg hoe]
        exact ⟨_, rfl, hS, hL, hcv⟩

/-- C2 witness: a concrete durable-configured key is written to both backends
and the container by the first variant's `set`. -/
theorem setV1_durable_fanout_witness :
    ∃ st2, ssSetV1 ⟨"P-", some ⟨some ["k"], none, some [("k", "r")]⟩⟩ "k" (.jv (.num 5))
      ⟨[], [], [], [], []⟩ = .ok st2 ∧
      alGet st2.sess "P-k" = some "5" ∧
      alGet st2.loc "P-k" = some "5" ∧
      containerValue st2.store "k" = some (.jv (.num 5)) :=
  setV1_durable_fanout "P-" "k" (.num 5) ⟨some ["k"], none, some [("k", "r")]⟩ ["k"]
    ⟨[], [], [], [], []⟩ rfl (by simp)

theorem ssGet_sess_eq (e : SS) (k : String) (d : Option Value) (st : St) :
    (ssGet e k d st).2.sess = st.sess := by
  unfold ssGet
  split
  · rfl
  · split
    · rfl
    · split
      · rfl
      · split <;> rfl

theorem ssGet_store_frame (e : SS) (k : String) (d : Option Value) (st : St) (k2 : String)
    (h : k2 ≠ k) : alGet (ssGet e k d st).2.store k2 = alGet st.store k2 := by
  unfold ssGet
  split
  · rfl
  · split
    · rfl
    · split
      · rfl
      · split <;> exact alGet_containerSet_ne _ _ _ _ h

theorem ssGet_container_good (e : SS) (k : String) (d : Option Value) (st : St) (s : String)
    (j : JVal) (hv : alGet st.sess (e.KEY_PREFIX ++ k) = some s) (hs : ¬(s = "undefined"))
    (hj : jparse s = some j) :
    containerValue (ssGet e k d st).2.store k = some (.jv j) := by
  unfold ssGet
  rw [hv]
  dsimp only
  rw [if_neg hs, hj]
  dsimp only
  cases j <;> exact containerValue_containerSet_self _ _ _

theorem ssGet_ret_good (e : SS) (k : String) (d : Option Value) (st : St) (s : String)
    (j : JVal) (hv : alGet st.sess (e.KEY_PREFIX ++ k) = some s) (hs : ¬(s = "undefined"))
    (hj : jparse s = some j) (hnn : j ≠ JVal.null) :
    (ssGet e k d st).1 = some (.jv j) := by
  unfold ssGet
  rw [hv]
  dsimp only
  rw [if_neg hs, hj]
  dsimp only
  cases j
  case null => exact absurd rfl hnn
  all_goals rfl

theorem getAllStep_snd (e : SS) (acc : List (String × Value) × St) (k : String) :
    (getAllStep e acc k).2 = (ssGet e k none acc.2).2 := by
  unfold getAllStep
  dsimp only
  split <;> rfl

theorem getAllLoop_stable (e : SS) (ks : List String) (acc : List (String × Value) × St)
    (k s : String) (j : JVal)
    (hv : alGet acc.2.sess (e.KEY_PREFIX ++ k) = some s) (hs : ¬(s = "undefined"))
    (hj : jparse s = some j)
    (hcv : containerValue acc.2.store k = some (.jv j)) :
    containerValue ((ks.foldl (getAllStep e) acc).2).store k = some (.jv j) := by
  induction ks generalizing acc with
  | nil => exact hcv
  | cons k' ks ih =>
    rw [List.foldl_cons]
    have hsess2 : (getAllStep e acc k').2.sess = acc.2.sess := by
      rw [getAllStep_snd, ssGet_sess_eq]
    by_cases hk : k' = k
    · subst hk
      refine ih (getAllStep e acc k') (by rw [hsess2]; exact hv) ?_
      rw [getAllStep_snd]
      exact ssGet_container_good e k' none acc.2 s j hv hs hj
    · refine ih (getAllStep e acc k') (by rw [hsess2]; exact hv) ?_
      unfold containerValue
      rw [getAllStep_snd, ssGet_store_frame e k' none acc.2 k (fun hh => hk hh.symm)]
      exact hcv

theorem getAllLoop_mem (e : SS) (ks : List String) (acc : List (String × Value) × St)
    (k s : String) (j : JVal) (hmem : k ∈ ks)
    (hv : alGet acc.2.sess (e.KEY_PREFIX ++ k) = some s) (hs : ¬(s = "undefined"))
    (hj : jparse s = some j) :
    containerValue ((ks.foldl (getAllStep e) acc).2).store k = some (.jv j) := by
  induction ks generalizing acc with
  | nil => simp at hmem
  | cons k' ks ih =>
    rw [List.foldl_cons]
    have hsess2 : (getAllStep e acc k').2.sess = acc.2.sess := by
      rw [getAllStep_snd, ssGet_sess_eq]
    by_cases hk : k' = k
    · subst hk
      refine getAllLoop_stable e ks (getAllStep e acc k') k' s j
        (by rw [hsess2]; exact hv) hs hj ?_
      rw [getAllStep_snd]
      exact ssGet_container_good e k' none acc.2 s j hv hs hj
    · have hmem2 : k ∈ ks := by
        rcases List.mem_cons.mp hmem with rfl | hm
        · exact absurd rfl hk
        · exact hm
      exact ih (getAllStep e acc k') hmem2 (by rw [hsess2]; exact hv)

/-- C8: `get` is a mutating read: for a key whose ephemeral entry holds valid
non-null JSON, `get` returns the parsed value AND writes it back into the
container (through the signal's write or a plain replacement); consequently
`getAll`, which folds `get` over the container's keys, rewrites every such
readable key's container value during enumeration. -/
theorem get_writes_back_to_container (ns k s : String) (cfgO : Option PermCfg)
    (d : Option Value) (st : St) (j : JVal)
    (hv : alGet st.sess (ns ++ k) = some s) (hs : ¬(s = "undefined"))
    (hj : jparse s = some j) (hnn : j ≠ JVal.null) :
    (ssGet ⟨ns, cfgO⟩ k d st).1 = some (.jv j) ∧
    containerValue (ssGet ⟨ns, cfgO⟩ k d st).2.store k = some (.jv j) ∧
    (k ∈ st.store.map Prod.fst →
      containerValue (ssGetAll ⟨ns, cfgO⟩ st).2.store k = some (.jv j)) := by
  refine ⟨ssGet_ret_good ⟨ns, cfgO⟩ k d st s j hv hs hj hnn,
          ssGet_container_good ⟨ns, cfgO⟩ k d st s j hv hs hj, ?_⟩
  intro hmem
  unfold ssGetAll
  exact getAllLoop_mem ⟨ns, cfgO⟩ (st.store.map Prod.fst) ([], st) k s j hmem hv hs hj

/-- C8 witness: a concrete readable key is both returned and written back by
`get`, and rewritten by `getAll`. -/
theorem get_writes_back_to_container_witness :
    (ssGet ⟨"P-", none⟩ "x" none
      ⟨[("P-x", "5")], [], [("x", .signal (.jv (.num 0)))], [], []⟩).1 = some (.jv (.num 5)) ∧
    containerValue (ssGet ⟨"P-", none⟩ "x" none
      ⟨[("P-x", "5")], [], [("x", .signal (.jv (.num 0)))], [], []⟩).2.store "x"
        = some (.jv (.num 5)) ∧
    ("x" ∈ (⟨[("P-x", "5")], [], [("x", .signal (.jv (.num 0)))], [], []⟩ : St).store.map Prod.fst →
      containerValue (ssGetAll ⟨"P-", none⟩
        ⟨[("P-x", "5")], [], [("x", .signal (.jv (.num 0)))], [], []⟩).2.store "x"
          = some (.jv (.num 5))) :=
  get_writes_back_to_container "P-" "x" "5" none none
    ⟨[("P-x", "5")], [], [("x", .signal (.jv (.num 0)))], [], []⟩ (.num 5)
    rfl (by simp) rfl (fun hh => JVal.noConfusion hh)

/-- C6 counterexample: `init` recovers from a serialization error instead of
letting it surface: with a durable-configured key whose container value is
not JSON-encodable, `init` returns normally (`Except.ok`), leaves the
durable backend unwritten, and merely logs the error — contradicting the
claim that the error propagates to the caller for `init`. -/
theorem init_catches_serialization_counterexample :
    ssInit ⟨"P-", some ⟨some ["x"], none, none⟩⟩ none ⟨[], [], [("x", .plain .cyclic)], [], []⟩
      = .ok ⟨[], [], [("x", .plain .cyclic)], [], [.errInitLoc "x"]⟩ := rfl

/-- C6 (amended): serialization-error policy: `set` (in both engine variants)
propagates a serialization error for a non-encodable value as a thrown
error, while `init` and `exit` catch every serialization error internally
(logging it) and always return normally. -/
theorem serialization_error_policy :
    (∀ (e : SS) (k : String) (st : St), ∃ stE, ssSet e k Value.cyclic st = .error stE) ∧
    (∀ (e : SS) (k : String) (st : St), ∃ stE, ssSetV1 e k Value.cyclic st = .error stE) ∧
    (∀ (e : SS) (o : Option String) (st : St), ∃ st2, ssInit e o st = .ok st2) ∧
    (∀ (e : SS) (o : Option String) (st : St), ∃ st2, ssExit e o st = .ok st2) := by
  have hset : ∀ (e : SS) (k : String) (st : St), ∃ stE, ssSet e k Value.cyclic st = .error stE := by
    intro e k st
    unfold ssSet
    rcases hst : alGet st.store k with _ | c
    · exact ⟨_, rfl⟩
    · cases c with
      | signal v => exact ⟨_, rfl⟩
      | plain v => exact ⟨_, rfl⟩
  refine ⟨hset, ?_, fun e o st => ⟨_, rfl⟩, fun e o st => ⟨_, rfl⟩⟩
  intro e k st
  obtain ⟨stE, hE⟩ := hset e k st
  unfold ssSetV1
  rw [hE]
  exact ⟨_, rfl⟩

/-- C5 amended witness: with `"undefined"` stored in both backends for a
configured key, `get` yields the default unchanged-state pair and `restore`
leaves the container entry untouched. -/
theorem sentinel_undefined_skipped_witness :
    ssGet ⟨"P-", some ⟨some ["x"], some ["x"], none⟩⟩ "x" (some (.jv (.num 3)))
      ⟨[("P-x", "undefined")], [("P-x", "undefined")], [("x", .plain (.jv (.num 7)))], [], []⟩
      = (some (.jv (.num 3)),
         ⟨[("P-x", "undefined")], [("P-x", "undefined")], [("x", .plain (.jv (.num 7)))], [], []⟩) ∧
    alGet (ssRestoreRun ⟨"P-", some ⟨some ["x"], some ["x"], none⟩⟩ none
      ⟨[("P-x", "undefined")], [("P-x", "undefined")], [("x", .plain (.jv (.num 7)))], [], []⟩).store "x"
      = alGet (⟨[("P-x", "undefined")], [("P-x", "undefined")], [("x", .plain (.jv (.num 7)))], [], []⟩ : St).store "x" :=
  sentinel_undefined_skipped "P-" "x" ⟨some ["x"], some ["x"], none⟩ (some (.jv (.num 3)))
    ⟨[("P-x", "undefined")], [("P-x", "undefined")], [("x", .plain (.jv (.num 7)))], [], []⟩
    rfl rfl

end OMA
